import Mathlib

/-!
Verification of the row-level AIR constraints of the sp1 arithmetization core:
the CPU chip (src/core/src/cpu/air/mod.rs) and the local-memory consistency
chip (src/core/src/memory/local.rs).

The constraint builder is embedded shallowly: every `assert_*` call of an
`eval` body becomes one field element in a list, and the row satisfies the
constraints exactly when every element of the list is zero.  Builder filters
(`when`, `when_transition`, `when_first_row`, `when_last_row`) multiply the
constraint by the corresponding selector, exactly as the algebraic builder
does.  Interactions (`send` / `receive`) are recorded as tagged events.
-/

/-- The BabyBear prime 15 * 2^27 + 1, the field the sp1 core constraints are
stated over. -/
def babyBear : Nat := 2013265921

/-- The constraint field. -/
abbrev F : Type := ZMod babyBear

/-- Iterated squaring: `sqIter x n = x ^ (2 ^ n)`, computable by `n`
multiplications. -/
def sqIter (x : F) : Nat → F
  | 0 => x
  | n + 1 => sqIter x n * sqIter x n

/-- The BabyBear modulus is prime, by a Lucas certificate at the
generator 31 (the prime factors of babyBear - 1 are 2, 3 and 5). -/
instance : Fact (Nat.Prime babyBear) := by
  constructor
  have sqIter_eq : ∀ (x : F) (n : Nat), sqIter x n = x ^ (2 ^ n) := by
    intro x n
    induction n with
    | zero => simp [sqIter]
    | succ n ih =>
        have h : 2 ^ n + 2 ^ n = 2 ^ (n + 1) := by
          rw [pow_succ]; omega
        rw [sqIter, ih, ← pow_add, h]
  apply lucas_primality babyBear 31
  · have h : babyBear - 1 = 15 * 2 ^ 27 := by norm_num [babyBear]
    rw [h, pow_mul, ← sqIter_eq]
    decide
  · intro q hq hdvd
    have h15 : babyBear - 1 = 2 ^ 27 * 15 := by norm_num [babyBear]
    have hq235 : q = 2 ∨ q = 3 ∨ q = 5 := by
      rw [h15] at hdvd
      rcases (Nat.Prime.dvd_mul hq).mp hdvd with h2 | h35
      · exact Or.inl ((Nat.prime_dvd_prime_iff_eq hq Nat.prime_two).mp
          (hq.dvd_of_dvd_pow h2))
      · have h35' : q ∣ 3 * 5 := by simpa using h35
        rcases (Nat.Prime.dvd_mul hq).mp h35' with h3 | h5
        · exact Or.inr (Or.inl
            ((Nat.prime_dvd_prime_iff_eq hq (by norm_num)).mp h3))
        · exact Or.inr (Or.inr
            ((Nat.prime_dvd_prime_iff_eq hq (by norm_num)).mp h5))
    rcases hq235 with rfl | rfl | rfl
    · have h : (babyBear - 1) / 2 = 15 * 2 ^ 26 := by norm_num [babyBear]
      rw [h, pow_mul, ← sqIter_eq]
      decide
    · have h : (babyBear - 1) / 3 = 5 * 2 ^ 27 := by norm_num [babyBear]
      rw [h, pow_mul, ← sqIter_eq]
      decide
    · have h : (babyBear - 1) / 5 = 3 * 2 ^ 27 := by norm_num [babyBear]
      rw [h, pow_mul, ← sqIter_eq]
      decide

/-- Indicator of a row-position selector (first row, last row, transition):
1 when the selector applies to the row, 0 otherwise. -/
def ind (b : Bool) : F := if b then 1 else 0

/-- A 4-limb word of field elements, as in the air module Word type: operand
values are 4-byte words. -/
structure Word where
  b0 : F
  b1 : F
  b2 : F
  b3 : F
deriving DecidableEq

/-- The limbs of a word in order, as extended onto an interaction value
list. -/
def Word.toList (w : Word) : List F := [w.b0, w.b1, w.b2, w.b3]

/-- Modelled from the spec: Word::reduce of the air module (not among the
shown sources) recomposes the 4 byte limbs in base 256. -/
def Word.reduce (w : Word) : F :=
  w.b0 + w.b1 * 256 + w.b2 * 65536 + w.b3 * 16777216

/-- Modelled from the spec: the CPU columns module (not among the shown
sources) declares one boolean selector per instruction class - ALU, ECALL,
the memory load/store variants, the branch comparison variants,
jump-and-link-register, jump-and-link, AUIPC and the catch-all
unimplemented flag - plus the two immediate flags imm_b and imm_c. -/
structure OpcodeSelectorCols where
  imm_b : F
  imm_c : F
  is_alu : F
  is_ecall : F
  is_lb : F
  is_lbu : F
  is_lh : F
  is_lhu : F
  is_lw : F
  is_sb : F
  is_sh : F
  is_sw : F
  is_beq : F
  is_bne : F
  is_blt : F
  is_bge : F
  is_bltu : F
  is_bgeu : F
  is_jalr : F
  is_jal : F
  is_auipc : F
  is_unimpl : F
deriving DecidableEq

/-- The instruction-class selectors in declaration order, i.e. every
selector column except the two immediate flags. -/
def OpcodeSelectorCols.classList (s : OpcodeSelectorCols) : List F :=
  [ s.is_alu, s.is_ecall
  , s.is_lb, s.is_lbu, s.is_lh, s.is_lhu, s.is_lw, s.is_sb, s.is_sh, s.is_sw
  , s.is_beq, s.is_bne, s.is_blt, s.is_bge, s.is_bltu, s.is_bgeu
  , s.is_jalr, s.is_jal, s.is_auipc, s.is_unimpl ]

/-- Modelled from the spec: the union flag of the memory load/store
variants, OpcodeSelectorCols::is_memory_instruction. -/
def OpcodeSelectorCols.is_memory_instruction (s : OpcodeSelectorCols) : F :=
  s.is_lb + s.is_lbu + s.is_lh + s.is_lhu + s.is_lw + s.is_sb + s.is_sh + s.is_sw

/-- Modelled from the spec: the union flag of the branch comparison
variants, OpcodeSelectorCols::is_branch_instruction. -/
def OpcodeSelectorCols.is_branch_instruction (s : OpcodeSelectorCols) : F :=
  s.is_beq + s.is_bne + s.is_blt + s.is_bge + s.is_bltu + s.is_bgeu

/-- Modelled from the spec: OpcodeSelectorCols::is_alu_instruction is the
ALU class selector. -/
def OpcodeSelectorCols.is_alu_instruction (s : OpcodeSelectorCols) : F :=
  s.is_alu

/-- Modelled from the spec: OpcodeSelectorCols::is_ecall_instruction is the
ECALL class selector. -/
def OpcodeSelectorCols.is_ecall_instruction (s : OpcodeSelectorCols) : F :=
  s.is_ecall

/-- Modelled from the spec: a read/write register access column set exposes
the previous value and the written value of the operand; op_a both reads
and writes the same register, notably for ECALL, whose syscall code is the
previous value of op_a. -/
structure MemoryAccessCols where
  prev_value : Word
  value : Word
deriving DecidableEq

/-- The instruction columns referenced by the shown constraints: the opcode
and the flag op_a_0 marking that operand a is register x0. -/
structure Instruction where
  opcode : F
  op_a_0 : F
deriving DecidableEq

/-- The CPU chip columns referenced by the constraints of
src/core/src/cpu/air/mod.rs. -/
structure CpuCols where
  pc : F
  next_pc : F
  shard : F
  clk : F
  clk_16bit_limb : F
  clk_8bit_limb : F
  channel : F
  nonce : F
  instruction : Instruction
  selectors : OpcodeSelectorCols
  op_a_access : MemoryAccessCols
  op_b_access : MemoryAccessCols
  op_c_access : MemoryAccessCols
  is_halt : F
  is_real : F
deriving DecidableEq

/-- CpuCols::op_a_val: the written value of operand a. -/
def CpuCols.op_a_val (c : CpuCols) : Word := c.op_a_access.value

/-- CpuCols::op_a_prev_val: the previous value of operand a. -/
def CpuCols.op_a_prev_val (c : CpuCols) : Word := c.op_a_access.prev_value

/-- CpuCols::op_b_val: the value of operand b. -/
def CpuCols.op_b_val (c : CpuCols) : Word := c.op_b_access.value

/-- CpuCols::op_c_val: the value of operand c. -/
def CpuCols.op_c_val (c : CpuCols) : Word := c.op_c_access.value

/-- The public values referenced by the CPU constraints: the execution
shard, the start pc, the next pc and the exit code (the digest words are
not referenced by the shown row constraints). -/
structure PublicValues where
  execution_shard : F
  start_pc : F
  next_pc : F
  exit_code : F
deriving DecidableEq

/-- CpuChip::get_num_extra_ecall_cycles: entry 2 of the previous value of
op_a (the syscall code word), times the ECALL instruction flag. -/
def CpuChip.get_num_extra_ecall_cycles (lrow : CpuCols) : F :=
  lrow.op_a_access.prev_value.b2 * lrow.selectors.is_ecall_instruction

/-- The three row constraints of CpuChip::eval between the instruction send
and eval_shard_clk: pc chaining on real transitions, halt or unimplemented
forcing the next row non-real, and halt binding the public exit code to the
reduced op_b word. -/
def CpuChip.pcHaltConstraints (lrow nrow : CpuCols) (pv : PublicValues)
    (transition : Bool) : List F :=
  [ ind transition * nrow.is_real * (lrow.next_pc - nrow.pc)
  , ind transition * (lrow.is_halt + lrow.selectors.is_unimpl) * nrow.is_real
  , lrow.is_halt * (lrow.op_b_val.reduce - pv.exit_code) ]

/-- The row constraints of CpuChip::eval_shard_clk: shard constancy on real
transitions, clk zero on the first row, and the clk increment on real
transitions.  The 16-bit shard range check and the 24-bit clk limb range
check of the same method are cross-table byte lookups, not row
constraints. -/
def CpuChip.eval_shard_clk (lrow nrow : CpuCols) (first transition : Bool) :
    List F :=
  [ ind transition * nrow.is_real * (lrow.shard - nrow.shard)
  , ind first * lrow.clk
  , ind transition * nrow.is_real *
      ((lrow.clk + 4 + CpuChip.get_num_extra_ecall_cycles lrow) - nrow.clk) ]

/-- The row constraints of CpuChip::eval_public_values: the public shard on
real rows, the public start pc on the first row, and the public next pc for
the two trace shapes (transition into padding, and real last row). -/
def CpuChip.eval_public_values (lrow nrow : CpuCols) (pv : PublicValues)
    (first last transition : Bool) : List F :=
  [ lrow.is_real * (pv.execution_shard - lrow.shard)
  , ind first * (pv.start_pc - lrow.pc)
  , ind transition * (lrow.is_real - nrow.is_real) * (pv.next_pc - lrow.next_pc)
  , ind last * lrow.is_real * (pv.next_pc - lrow.next_pc) ]

/-- The row constraints of CpuChip::eval_is_real: is_real is boolean, one on
the first row, and zero stays zero across transitions. -/
def CpuChip.eval_is_real (lrow nrow : CpuCols) (first transition : Bool) :
    List F :=
  [ lrow.is_real * (lrow.is_real - 1)
  , ind first * (lrow.is_real - 1)
  , ind transition * (1 - lrow.is_real) * nrow.is_real ]

/-- The padding discipline of CpuChip::eval: on non-real rows the two
immediate flags are forced to one and every other selector to zero.  The
iteration order follows the selector column order, with the two immediate
flags special-cased exactly as in the source loop. -/
def CpuChip.paddingSelectorConstraints (lrow : CpuCols) : List F :=
  (1 - lrow.is_real) * (lrow.selectors.imm_b - 1)
    :: (1 - lrow.is_real) * (lrow.selectors.imm_c - 1)
    :: lrow.selectors.classList.map fun s => (1 - lrow.is_real) * s

/-- The row constraints emitted by CpuChip::eval, in source order.  The
program, ALU, byte and instruction sends are cross-table interactions, and
the register and channel-selector helpers live in modules that are not
among the shown sources; neither emits a row constraint modelled here. -/
def CpuChip.eval (lrow nrow : CpuCols) (pv : PublicValues)
    (first last transition : Bool) : List F :=
  CpuChip.pcHaltConstraints lrow nrow pv transition
    ++ CpuChip.eval_shard_clk lrow nrow first transition
    ++ CpuChip.eval_public_values lrow nrow pv first last transition
    ++ CpuChip.eval_is_real lrow nrow first transition
    ++ CpuChip.paddingSelectorConstraints lrow

/-- Modelled from the spec: the selector-block constraints of the CPU
columns module (not among the shown sources) keep every instruction-class
selector boolean and force exactly one of them on a real row, i.e. the sum
of the class selectors is one whenever is_real is one. -/
def OpcodeSelectorCols.realRowConstraints (lrow : CpuCols) : List F :=
  (lrow.selectors.classList.map fun s => s * (s - 1))
    ++ [lrow.is_real * (lrow.selectors.classList.sum - 1)]

/-- The CPU chip row constraints together with the spec-modelled selector
block constraints. -/
def CpuChip.evalWithSelectors (lrow nrow : CpuCols) (pv : PublicValues)
    (first last transition : Bool) : List F :=
  CpuChip.eval lrow nrow pv first last transition
    ++ OpcodeSelectorCols.realRowConstraints lrow

/-- The all-zero word. -/
def Word.zero : Word := ⟨0, 0, 0, 0⟩

/-- The all-zero selector block. -/
def OpcodeSelectorCols.zero : OpcodeSelectorCols :=
  ⟨0, 0, 0, 0, 0, 0, 0, 0, 0, 0, 0, 0, 0, 0, 0, 0, 0, 0, 0, 0, 0, 0⟩

/-- The all-zero CPU row, used as the out-of-range default when indexing a
trace; every use below is guarded by an in-range hypothesis. -/
def CpuCols.zeroRow : CpuCols :=
  { pc := 0, next_pc := 0, shard := 0, clk := 0, clk_16bit_limb := 0
  , clk_8bit_limb := 0, channel := 0, nonce := 0
  , instruction := ⟨0, 0⟩, selectors := OpcodeSelectorCols.zero
  , op_a_access := ⟨Word.zero, Word.zero⟩
  , op_b_access := ⟨Word.zero, Word.zero⟩
  , op_c_access := ⟨Word.zero, Word.zero⟩
  , is_halt := 0, is_real := 0 }

/-- Row i of a CPU trace. -/
def traceRow (t : List CpuCols) (i : Nat) : CpuCols := t.getD i CpuCols.zeroRow

/-- A trace satisfies a row-constraint family when every constraint of every
row evaluates to zero.  The next row of the last row wraps around to row 0,
as on the cyclic evaluation domain of the STARK; every constraint reading
the next row is gated by the transition selector, so the wraparound value is
never constrained. -/
def traceSat
    (f : CpuCols → CpuCols → PublicValues → Bool → Bool → Bool → List F)
    (pv : PublicValues) (t : List CpuCols) : Bool :=
  (List.range t.length).all fun i =>
    (f (traceRow t i) (traceRow t ((i + 1) % t.length)) pv
        (decide (i = 0)) (decide (i = t.length - 1))
        (decide (i + 1 < t.length))).all fun c => c == 0

/-- The opcode-specific chip columns referenced by the shown constraints of
CpuOpcodeSpecificChip::eval. -/
structure CpuOpcodeSpecificCols where
  clk : F
  shard : F
  channel : F
  pc : F
  next_pc : F
  selectors : OpcodeSelectorCols
  op_a_prev_val : Word
  op_a_val : Word
  op_b_val : Word
  op_c_val : Word
  op_a_0 : F
  is_halt : F
  is_real : F
deriving DecidableEq

/-- The sequential-fallback constraint at the end of
CpuOpcodeSpecificChip::eval: when the row is real and is none of branch,
JAL, JALR or halt, next_pc equals pc + 4.  The opcode-class helpers called
before it live in modules that are not among the shown sources. -/
def CpuOpcodeSpecificChip.seqConstraints (lrow : CpuOpcodeSpecificCols) :
    List F :=
  [ lrow.is_real
      * (1 - (lrow.selectors.is_branch_instruction + lrow.selectors.is_jal
          + lrow.selectors.is_jalr + lrow.is_halt))
      * ((lrow.pc + 4) - lrow.next_pc) ]

/-- The two roles of the local-memory chip,
src/core/src/memory/MemoryChipType. -/
inductive MemoryChipType
  | Initialize
  | Finalize
deriving DecidableEq

/-- Modelled from the spec: the stable interaction-kind identifiers of the
lookup module (not among the shown sources); only Memory is used below. -/
inductive InteractionKind
  | Program
  | Alu
  | Memory
  | Byte
  | Instr
deriving DecidableEq

/-- The scope of an interaction: local to a shard or global across shards. -/
inductive InteractionScope
  | Global
  | Local
deriving DecidableEq

/-- An interaction: an ordered list of field elements, a multiplicity and a
kind tag (the air module AirInteraction). -/
structure AirInteraction where
  values : List F
  multiplicity : F
  kind : InteractionKind
deriving DecidableEq

/-- The direction of an interaction event emitted by a chip. -/
inductive InteractionDir
  | Send
  | Receive
deriving DecidableEq

/-- One emitted interaction event: a direction, a scope and a tuple. -/
structure InteractionEvent where
  dir : InteractionDir
  scope : InteractionScope
  interaction : AirInteraction
deriving DecidableEq

/-- The columns of the local-memory chip,
src/core/src/memory/local.rs MemoryLocalInitCols. -/
structure MemoryLocalInitCols where
  shard : F
  clk : F
  addr : F
  value : Word
  is_real : F
deriving DecidableEq

/-- The row-local constraints of MemoryLocalChip::eval: the single self
equality is_real * is_real * is_real = is_real * is_real * is_real.  The
constraint list does not depend on the chip kind. -/
def MemoryLocalChip.evalConstraints (lrow : MemoryLocalInitCols) : List F :=
  [ lrow.is_real * lrow.is_real * lrow.is_real
      - lrow.is_real * lrow.is_real * lrow.is_real ]

/-- The interaction events of MemoryLocalChip::eval.  The value list is the
shard, the clk, the address and then the four value limbs; the multiplicity
is is_real and the kind is Memory.  An Initialize chip sends globally and
receives locally; a Finalize chip receives globally and sends locally. -/
def MemoryLocalChip.evalInteractions (kind : MemoryChipType)
    (lrow : MemoryLocalInitCols) : List InteractionEvent :=
  let values : List F := [lrow.shard, lrow.clk, lrow.addr] ++ lrow.value.toList
  match kind with
  | MemoryChipType.Initialize =>
      [ ⟨InteractionDir.Send, InteractionScope.Global,
          ⟨values, lrow.is_real, InteractionKind.Memory⟩⟩
      , ⟨InteractionDir.Receive, InteractionScope.Local,
          ⟨values, lrow.is_real, InteractionKind.Memory⟩⟩ ]
  | MemoryChipType.Finalize =>
      [ ⟨InteractionDir.Receive, InteractionScope.Global,
          ⟨values, lrow.is_real, InteractionKind.Memory⟩⟩
      , ⟨InteractionDir.Send, InteractionScope.Local,
          ⟨values, lrow.is_real, InteractionKind.Memory⟩⟩ ]

/-- A memory access record (shard, clk, value), the shape of the runtime
module MemoryRecord consumed by the local-memory chip. -/
structure MemoryRecord where
  shard : Nat
  clk : Nat
  value : Nat
deriving DecidableEq

/-- A local memory event: an address with its initial and final access
records, src/core/src/memory/local.rs MemoryLocalEvent. -/
structure MemoryLocalEvent where
  addr : Nat
  initial_mem_access : MemoryRecord
  final_mem_access : MemoryRecord
deriving DecidableEq

/-- Modelled from the spec: a keccak-permute precompile event surfaces the
local memory accesses of its scratch memory (the precompile module is not
among the shown sources; only its local_mem_access list is consumed
here). -/
structure KeccakPermuteEvent where
  local_mem_access : List MemoryLocalEvent
deriving DecidableEq

/-- The execution-record fields consumed by MemoryLocalChip (the runtime
module record shape). -/
structure ExecutionRecord where
  local_memory_access : List MemoryLocalEvent
  keccak_permute_events : List KeccakPermuteEvent
deriving DecidableEq

/-- MemoryLocalChip::included: the chip is instantiated for a shard exactly
when the keccak-permute events surface a local memory access or the shard
has one directly. -/
def MemoryLocalChip.included (shard : ExecutionRecord) : Bool :=
  let keccakLocalMemEvents :=
    shard.keccak_permute_events.flatMap fun x => x.local_mem_access
  !keccakLocalMemEvents.isEmpty || !shard.local_memory_access.isEmpty

/-- Public values used by the all-real witness trace. -/
def pvW : PublicValues :=
  { execution_shard := 1, start_pc := 8, next_pc := 16, exit_code := 0 }

/-- First witness row: a real ALU row at pc 8. -/
def rowA : CpuCols :=
  { CpuCols.zeroRow with
      pc := 8, next_pc := 12, shard := 1, clk := 0, is_real := 1
    , selectors := { OpcodeSelectorCols.zero with is_alu := 1 } }

/-- Second witness row: a real ALU row at pc 12. -/
def rowB : CpuCols :=
  { CpuCols.zeroRow with
      pc := 12, next_pc := 16, shard := 1, clk := 4, is_real := 1
    , selectors := { OpcodeSelectorCols.zero with is_alu := 1 } }

/-- A two-row all-real witness trace. -/
def tW : List CpuCols := [rowA, rowB]

/-- A padding row: not real, both immediate flags one, everything else
zero. -/
def padRow : CpuCols :=
  { CpuCols.zeroRow with
      selectors := { OpcodeSelectorCols.zero with imm_b := 1, imm_c := 1 } }

/-- Public values used by the witness trace ending in padding. -/
def pvPad : PublicValues :=
  { execution_shard := 1, start_pc := 8, next_pc := 12, exit_code := 0 }

/-- A three-row witness trace: one real row followed by two padding rows. -/
def tPad : List CpuCols := [rowA, padRow, padRow]

/-- A real halting row: is_halt set, op_b holding exit code 5. -/
def rowH : CpuCols :=
  { CpuCols.zeroRow with
      pc := 8, next_pc := 0, shard := 1, clk := 0, is_real := 1, is_halt := 1
    , selectors := { OpcodeSelectorCols.zero with is_ecall := 1 }
    , op_b_access := ⟨Word.zero, ⟨5, 0, 0, 0⟩⟩ }

/-- Public values used by the halting witness trace. -/
def pvH : PublicValues :=
  { execution_shard := 1, start_pc := 8, next_pc := 0, exit_code := 5 }

/-- A two-row halting witness trace: a halt row followed by padding. -/
def tHalt : List CpuCols := [rowH, padRow]

/-- A padding row of the opcode-specific chip with next_pc different from
pc + 4. -/
def ceRow : CpuOpcodeSpecificCols :=
  { clk := 0, shard := 0, channel := 0, pc := 0, next_pc := 1
  , selectors := OpcodeSelectorCols.zero
  , op_a_prev_val := Word.zero, op_a_val := Word.zero
  , op_b_val := Word.zero, op_c_val := Word.zero
  , op_a_0 := 0, is_halt := 0, is_real := 0 }

/-- A real sequential row of the opcode-specific chip. -/
def seqRowW : CpuOpcodeSpecificCols :=
  { clk := 0, shard := 1, channel := 0, pc := 0, next_pc := 4
  , selectors := OpcodeSelectorCols.zero
  , op_a_prev_val := Word.zero, op_a_val := Word.zero
  , op_b_val := Word.zero, op_c_val := Word.zero
  , op_a_0 := 0, is_halt := 0, is_real := 1 }

/-- A local memory event at address 0. -/
def wEvt : MemoryLocalEvent := ⟨0, ⟨0, 0, 0⟩, ⟨0, 0, 0⟩⟩

/-- An execution record with one direct local memory access. -/
def wRec : ExecutionRecord := ⟨[wEvt], []⟩

theorem ind_true : ind true = 1 := rfl

theorem ind_false : ind false = 0 := rfl

theorem traceSat_row
    (f : CpuCols → CpuCols → PublicValues → Bool → Bool → Bool → List F)
    (pv : PublicValues) (t : List CpuCols) (h : traceSat f pv t = true)
    (i : Nat) (hi : i < t.length) :
    ∀ c ∈ f (traceRow t i) (traceRow t ((i + 1) % t.length)) pv
        (decide (i = 0)) (decide (i = t.length - 1))
        (decide (i + 1 < t.length)), c = 0 := by
  intro c hc
  unfold traceSat at h
  rw [List.all_eq_true] at h
  have h2 := h i (List.mem_range.mpr hi)
  rw [List.all_eq_true] at h2
  exact eq_of_beq (h2 c hc)

theorem traceSat_row_transition
    (f : CpuCols → CpuCols → PublicValues → Bool → Bool → Bool → List F)
    (pv : PublicValues) (t : List CpuCols) (h : traceSat f pv t = true)
    (i : Nat) (hi : i + 1 < t.length) :
    ∀ c ∈ f (traceRow t i) (traceRow t (i + 1)) pv
        (decide (i = 0)) (decide (i = t.length - 1)) true, c = 0 := by
  have h2 := traceSat_row f pv t h i (Nat.lt_of_succ_lt hi)
  rw [Nat.mod_eq_of_lt hi, decide_eq_true hi] at h2
  exact h2

theorem cpuEval_parts {lrow nrow : CpuCols} {pv : PublicValues}
    {first last transition : Bool}
    (h : ∀ c ∈ CpuChip.eval lrow nrow pv first last transition, c = 0) :
    (∀ c ∈ CpuChip.pcHaltConstraints lrow nrow pv transition, c = 0) ∧
    (∀ c ∈ CpuChip.eval_shard_clk lrow nrow first transition, c = 0) ∧
    (∀ c ∈ CpuChip.eval_public_values lrow nrow pv first last transition, c = 0) ∧
    (∀ c ∈ CpuChip.eval_is_real lrow nrow first transition, c = 0) ∧
    (∀ c ∈ CpuChip.paddingSelectorConstraints lrow, c = 0) := by
  simp only [CpuChip.eval, List.forall_mem_append] at h
  exact ⟨h.1.1.1.1, h.1.1.1.2, h.1.1.2, h.1.2, h.2⟩

theorem shard_clk_parts {lrow nrow : CpuCols} {first transition : Bool}
    (h : ∀ c ∈ CpuChip.eval_shard_clk lrow nrow first transition, c = 0) :
    ind transition * nrow.is_real * (lrow.shard - nrow.shard) = 0 ∧
    ind first * lrow.clk = 0 ∧
    ind transition * nrow.is_real *
      ((lrow.clk + 4 + CpuChip.get_num_extra_ecall_cycles lrow) - nrow.clk)
      = 0 := by
  simp only [CpuChip.eval_shard_clk, List.forall_mem_cons, List.not_mem_nil,
    false_implies, implies_true, and_true] at h
  exact h

/-- Claim C1: on the CPU chip the first row clk is 0 and, on every transition into
a real row, next.clk = local.clk + 4 + extra cycles, where the extra cycles
are entry 2 of the previous value of op_a on an ECALL row and 0 on a
non-ECALL row. -/
theorem cpu_clk_correct (pv : PublicValues) (t : List CpuCols)
    (h : traceSat CpuChip.eval pv t = true) :
    (0 < t.length → (traceRow t 0).clk = 0) ∧
    ∀ i, i + 1 < t.length → (traceRow t (i + 1)).is_real = 1 →
      ((traceRow t i).selectors.is_ecall = 1 →
        (traceRow t (i + 1)).clk
          = (traceRow t i).clk + 4 + (traceRow t i).op_a_access.prev_value.b2) ∧
      ((traceRow t i).selectors.is_ecall = 0 →
        (traceRow t (i + 1)).clk = (traceRow t i).clk + 4) := by
  constructor
  · intro h0
    have hrow := traceSat_row CpuChip.eval pv t h 0 h0
    have hclk := (shard_clk_parts (cpuEval_parts hrow).2.1).2.1
    simpa [ind] using hclk
  · intro i hi hreal
    have hrow := traceSat_row_transition CpuChip.eval pv t h i hi
    have hclk := (shard_clk_parts (cpuEval_parts hrow).2.1).2.2
    rw [ind_true, one_mul, hreal, one_mul, sub_eq_zero] at hclk
    constructor
    · intro hec
      rw [← hclk]
      simp [CpuChip.get_num_extra_ecall_cycles,
        OpcodeSelectorCols.is_ecall_instruction, hec]
    · intro hec
      rw [← hclk]
      simp [CpuChip.get_num_extra_ecall_cycles,
        OpcodeSelectorCols.is_ecall_instruction, hec]

theorem cpu_clk_correct_witness :
    traceSat CpuChip.eval pvW tW = true ∧ (traceRow tW 0).clk = 0 ∧
      (traceRow tW 1).clk = (traceRow tW 0).clk + 4 :=
  have hs : traceSat CpuChip.eval pvW tW = true := by decide
  ⟨hs, (cpu_clk_correct pvW tW hs).1 (by decide),
    ((cpu_clk_correct pvW tW hs).2 0 (by decide) (by decide)).2 (by decide)⟩

theorem pcHalt_parts {lrow nrow : CpuCols} {pv : PublicValues}
    {transition : Bool}
    (h : ∀ c ∈ CpuChip.pcHaltConstraints lrow nrow pv transition, c = 0) :
    ind transition * nrow.is_real * (lrow.next_pc - nrow.pc) = 0 ∧
    ind transition * (lrow.is_halt + lrow.selectors.is_unimpl) * nrow.is_real
      = 0 ∧
    lrow.is_halt * (lrow.op_b_val.reduce - pv.exit_code) = 0 := by
  simp only [CpuChip.pcHaltConstraints, List.forall_mem_cons, List.not_mem_nil,
    false_implies, implies_true, and_true] at h
  exact h

/-- Claim C5: on every transition of the CPU chip into a real row, local.next_pc
equals next.pc. -/
theorem cpu_pc_chain_correct (pv : PublicValues) (t : List CpuCols)
    (h : traceSat CpuChip.eval pv t = true) :
    ∀ i, i + 1 < t.length → (traceRow t (i + 1)).is_real = 1 →
      (traceRow t i).next_pc = (traceRow t (i + 1)).pc := by
  intro i hi hreal
  have hrow := traceSat_row_transition CpuChip.eval pv t h i hi
  have hpc := (pcHalt_parts (cpuEval_parts hrow).1).1
  rw [ind_true, one_mul, hreal, one_mul, sub_eq_zero] at hpc
  exact hpc

theorem cpu_pc_chain_correct_witness :
    traceSat CpuChip.eval pvW tW = true ∧
      (traceRow tW 0).next_pc = (traceRow tW 1).pc :=
  have hs : traceSat CpuChip.eval pvW tW = true := by decide
  ⟨hs, cpu_pc_chain_correct pvW tW hs 0 (by decide) (by decide)⟩

theorem is_real_parts {lrow nrow : CpuCols} {first transition : Bool}
    (h : ∀ c ∈ CpuChip.eval_is_real lrow nrow first transition, c = 0) :
    lrow.is_real * (lrow.is_real - 1) = 0 ∧
    ind first * (lrow.is_real - 1) = 0 ∧
    ind transition * (1 - lrow.is_real) * nrow.is_real = 0 := by
  simp only [CpuChip.eval_is_real, List.forall_mem_cons, List.not_mem_nil,
    false_implies, implies_true, and_true] at h
  exact h

/-- Claim C7: on the CPU chip, is_real is boolean on every row, equals one on the
first row, and once zero stays zero on every transition. -/
theorem cpu_is_real_correct (pv : PublicValues) (t : List CpuCols)
    (h : traceSat CpuChip.eval pv t = true) :
    (∀ i, i < t.length →
      (traceRow t i).is_real = 0 ∨ (traceRow t i).is_real = 1) ∧
    (0 < t.length → (traceRow t 0).is_real = 1) ∧
    (∀ i, i + 1 < t.length → (traceRow t i).is_real = 0 →
      (traceRow t (i + 1)).is_real = 0) := by
  refine ⟨?_, ?_, ?_⟩
  · intro i hi
    have hrow := traceSat_row CpuChip.eval pv t h i hi
    have hb := (is_real_parts (cpuEval_parts hrow).2.2.2.1).1
    rcases mul_eq_zero.mp hb with hb | hb
    · exact Or.inl hb
    · exact Or.inr (sub_eq_zero.mp hb)
  · intro h0
    have hrow := traceSat_row CpuChip.eval pv t h 0 h0
    have hf := (is_real_parts (cpuEval_parts hrow).2.2.2.1).2.1
    simpa [ind, sub_eq_zero] using hf
  · intro i hi hzero
    have hrow := traceSat_row_transition CpuChip.eval pv t h i hi
    have hm := (is_real_parts (cpuEval_parts hrow).2.2.2.1).2.2
    rw [ind_true, one_mul, hzero, sub_zero, one_mul] at hm
    exact hm

theorem cpu_is_real_correct_witness :
    traceSat CpuChip.eval pvPad tPad = true ∧
      (traceRow tPad 0).is_real = 1 ∧ (traceRow tPad 2).is_real = 0 :=
  have hs : traceSat CpuChip.eval pvPad tPad = true := by decide
  ⟨hs, (cpu_is_real_correct pvPad tPad hs).2.1 (by decide),
    (cpu_is_real_correct pvPad tPad hs).2.2 1 (by decide) (by decide)⟩

/-- Claim C4: on the CPU chip, a transition row whose is_halt or unimplemented
selector holds (each being boolean) forces the next row to be non-real, and
any row whose is_halt holds binds the public exit code to the reduced op_b
word. -/
theorem cpu_halt_correct (pv : PublicValues) (t : List CpuCols)
    (h : traceSat CpuChip.eval pv t = true) :
    ∀ i, i < t.length →
      ((i + 1 < t.length →
        ((traceRow t i).is_halt = 0 ∨ (traceRow t i).is_halt = 1) →
        ((traceRow t i).selectors.is_unimpl = 0 ∨
          (traceRow t i).selectors.is_unimpl = 1) →
        ((traceRow t i).is_halt = 1 ∨ (traceRow t i).selectors.is_unimpl = 1) →
        (traceRow t (i + 1)).is_real = 0) ∧
      ((traceRow t i).is_halt = 1 →
        ((traceRow t i).op_b_val).reduce = pv.exit_code)) := by
  intro i hi
  constructor
  · intro htr hbh hbu hor
    have hrow := traceSat_row_transition CpuChip.eval pv t h i htr
    have hc := (pcHalt_parts (cpuEval_parts hrow).1).2.1
    rw [ind_true, one_mul] at hc
    rcases hbh with hbh | hbh <;> rcases hbu with hbu | hbu
    · exfalso
      rcases hor with h1 | h1
      · rw [hbh] at h1; exact absurd h1 (by decide)
      · rw [hbu] at h1; exact absurd h1 (by decide)
    · rw [hbh, hbu, zero_add, one_mul] at hc
      exact hc
    · rw [hbh, hbu, add_zero, one_mul] at hc
      exact hc
    · rw [hbh, hbu] at hc
      rcases mul_eq_zero.mp hc with h2 | h2
      · exact absurd h2 (by decide)
      · exact h2
  · intro hhalt
    have hrow := traceSat_row CpuChip.eval pv t h i hi
    have hc := (pcHalt_parts (cpuEval_parts hrow).1).2.2
    rw [hhalt, one_mul, sub_eq_zero] at hc
    exact hc

theorem cpu_halt_correct_witness :
    traceSat CpuChip.eval pvH tHalt = true ∧
      (traceRow tHalt 1).is_real = 0 ∧
      ((traceRow tHalt 0).op_b_val).reduce = pvH.exit_code :=
  have hs : traceSat CpuChip.eval pvH tHalt = true := by decide
  ⟨hs, (cpu_halt_correct pvH tHalt hs 0 (by decide)).1 (by decide)
      (by decide) (by decide) (by decide),
    (cpu_halt_correct pvH tHalt hs 0 (by decide)).2 (by decide)⟩

theorem public_values_parts {lrow nrow : CpuCols} {pv : PublicValues}
    {first last transition : Bool}
    (h : ∀ c ∈ CpuChip.eval_public_values lrow nrow pv first last transition,
      c = 0) :
    lrow.is_real * (pv.execution_shard - lrow.shard) = 0 ∧
    ind first * (pv.start_pc - lrow.pc) = 0 ∧
    ind transition * (lrow.is_real - nrow.is_real) * (pv.next_pc - lrow.next_pc)
      = 0 ∧
    ind last * lrow.is_real * (pv.next_pc - lrow.next_pc) = 0 := by
  simp only [CpuChip.eval_public_values, List.forall_mem_cons,
    List.not_mem_nil, false_implies, implies_true, and_true] at h
  exact h

/-- Claim C8: the public next_pc equals the next_pc of the last real row, both
when that row is a transition row followed by a padding row and when it is
the final row of the trace. -/
theorem cpu_public_next_pc_correct (pv : PublicValues) (t : List CpuCols)
    (h : traceSat CpuChip.eval pv t = true) :
    (∀ i, i + 1 < t.length → (traceRow t i).is_real = 1 →
      (traceRow t (i + 1)).is_real = 0 → pv.next_pc = (traceRow t i).next_pc) ∧
    (0 < t.length → (traceRow t (t.length - 1)).is_real = 1 →
      pv.next_pc = (traceRow t (t.length - 1)).next_pc) := by
  constructor
  · intro i hi h1 h0
    have hrow := traceSat_row_transition CpuChip.eval pv t h i hi
    have hc := (public_values_parts (cpuEval_parts hrow).2.2.1).2.2.1
    rw [ind_true, one_mul, h1, h0, sub_zero, one_mul, sub_eq_zero] at hc
    exact hc
  · intro h0 hreal
    have hlt : t.length - 1 < t.length := by omega
    have hrow := traceSat_row CpuChip.eval pv t h (t.length - 1) hlt
    have hc := (public_values_parts (cpuEval_parts hrow).2.2.1).2.2.2
    rw [decide_eq_true rfl, ind_true, one_mul, hreal, one_mul,
      sub_eq_zero] at hc
    exact hc

theorem cpu_public_next_pc_correct_witness :
    (traceSat CpuChip.eval pvPad tPad = true ∧
      pvPad.next_pc = (traceRow tPad 0).next_pc) ∧
    (traceSat CpuChip.eval pvW tW = true ∧
      pvW.next_pc = (traceRow tW (tW.length - 1)).next_pc) :=
  have hs : traceSat CpuChip.eval pvPad tPad = true := by decide
  have hs2 : traceSat CpuChip.eval pvW tW = true := by decide
  ⟨⟨hs, (cpu_public_next_pc_correct pvPad tPad hs).1 0 (by decide) (by decide)
      (by decide)⟩,
    ⟨hs2, (cpu_public_next_pc_correct pvW tW hs2).2 (by decide) (by decide)⟩⟩

theorem padding_parts {lrow : CpuCols}
    (h : ∀ c ∈ CpuChip.paddingSelectorConstraints lrow, c = 0) :
    (1 - lrow.is_real) * (lrow.selectors.imm_b - 1) = 0 ∧
    (1 - lrow.is_real) * (lrow.selectors.imm_c - 1) = 0 ∧
    ∀ s ∈ lrow.selectors.classList, (1 - lrow.is_real) * s = 0 := by
  simp only [CpuChip.paddingSelectorConstraints, List.forall_mem_cons] at h
  refine ⟨h.1, h.2.1, ?_⟩
  intro s hs
  exact h.2.2 _ (List.mem_map_of_mem _ hs)

theorem realRow_parts {lrow : CpuCols}
    (h : ∀ c ∈ OpcodeSelectorCols.realRowConstraints lrow, c = 0) :
    (∀ s ∈ lrow.selectors.classList, s * (s - 1) = 0) ∧
    lrow.is_real * (lrow.selectors.classList.sum - 1) = 0 := by
  simp only [OpcodeSelectorCols.realRowConstraints, List.forall_mem_append,
    List.forall_mem_cons, List.not_mem_nil, false_implies, implies_true,
    and_true] at h
  refine ⟨?_, h.2⟩
  intro s hs
  exact h.1 _ (List.mem_map_of_mem _ hs)

theorem evalWithSelectors_parts {lrow nrow : CpuCols} {pv : PublicValues}
    {first last transition : Bool}
    (h : ∀ c ∈ CpuChip.evalWithSelectors lrow nrow pv first last transition,
      c = 0) :
    (∀ c ∈ CpuChip.eval lrow nrow pv first last transition, c = 0) ∧
    (∀ c ∈ OpcodeSelectorCols.realRowConstraints lrow, c = 0) := by
  simp only [CpuChip.evalWithSelectors, List.forall_mem_append] at h
  exact h

theorem sum_eq_count_one {l : List F} (hb : ∀ x ∈ l, x = 0 ∨ x = 1) :
    l.sum = (l.count 1 : Nat) := by
  induction l with
  | nil => simp
  | cons x xs ih =>
      have hx := hb x (List.mem_cons_self x xs)
      have ih2 := ih fun y hy => hb y (List.mem_cons_of_mem x hy)
      rcases hx with hx | hx
      · have hne : (1 : F) ≠ x := by rw [hx]; decide
        rw [List.sum_cons, List.count_cons_of_ne hne, ih2, hx, zero_add]
      · rw [List.sum_cons, hx, List.count_cons_self, ih2]
        push_cast
        ring

theorem count_one_of_cast_eq_one {l : List F}
    (hc : ((l.count 1 : Nat) : F) = 1) (hlen : l.length ≤ 20) :
    l.count 1 = 1 := by
  have hle : l.count 1 ≤ 20 := le_trans (List.count_le_length _ _) hlen
  have hlt : l.count 1 < babyBear := by
    have : babyBear = 2013265921 := rfl
    omega
  have hv := ZMod.val_cast_of_lt hlt
  rw [hc] at hv
  have h1 : (1 : F).val = 1 := by decide
  omega

/-- Claim C3: on the CPU chip with its selector block, a real row has boolean
instruction-class selectors of which exactly one is set, and a padding row
has every instruction-class selector zero with the two immediate flags
forced to one. -/
theorem cpu_selector_correct (pv : PublicValues) (t : List CpuCols)
    (h : traceSat CpuChip.evalWithSelectors pv t = true) :
    ∀ i, i < t.length →
      ((traceRow t i).is_real = 1 →
        (∀ s ∈ (traceRow t i).selectors.classList, s = 0 ∨ s = 1) ∧
        (traceRow t i).selectors.classList.count 1 = 1) ∧
      ((traceRow t i).is_real = 0 →
        (∀ s ∈ (traceRow t i).selectors.classList, s = 0) ∧
        (traceRow t i).selectors.imm_b = 1 ∧
        (traceRow t i).selectors.imm_c = 1) := by
  intro i hi
  have hrow := traceSat_row CpuChip.evalWithSelectors pv t h i hi
  have hparts := evalWithSelectors_parts hrow
  have hreal := realRow_parts hparts.2
  have hpad := padding_parts (cpuEval_parts hparts.1).2.2.2.2
  constructor
  · intro h1
    have hbool : ∀ s ∈ (traceRow t i).selectors.classList, s = 0 ∨ s = 1 := by
      intro s hs
      rcases mul_eq_zero.mp (hreal.1 s hs) with hz | hz
      · exact Or.inl hz
      · exact Or.inr (sub_eq_zero.mp hz)
    refine ⟨hbool, ?_⟩
    have hsum := hreal.2
    rw [h1, one_mul, sub_eq_zero, sum_eq_count_one hbool] at hsum
    exact count_one_of_cast_eq_one hsum (by
      simp [OpcodeSelectorCols.classList])
  · intro h0
    refine ⟨?_, ?_, ?_⟩
    · intro s hs
      have hz := hpad.2.2 s hs
      rw [h0, sub_zero, one_mul] at hz
      exact hz
    · have hz := hpad.1
      rw [h0, sub_zero, one_mul, sub_eq_zero] at hz
      exact hz
    · have hz := hpad.2.1
      rw [h0, sub_zero, one_mul, sub_eq_zero] at hz
      exact hz

theorem cpu_selector_correct_witness :
    traceSat CpuChip.evalWithSelectors pvPad tPad = true ∧
      (traceRow tPad 0).selectors.classList.count 1 = 1 ∧
      (traceRow tPad 1).selectors.imm_b = 1 ∧
      (traceRow tPad 1).selectors.imm_c = 1 :=
  have hs : traceSat CpuChip.evalWithSelectors pvPad tPad = true := by decide
  ⟨hs, ((cpu_selector_correct pvPad tPad hs 0 (by decide)).1 (by decide)).2,
    ((cpu_selector_correct pvPad tPad hs 1 (by decide)).2 (by decide)).2.1,
    ((cpu_selector_correct pvPad tPad hs 1 (by decide)).2 (by decide)).2.2⟩

/-- Claim C6 counterexample: a padding row of the opcode-specific chip satisfies
the sequential-fallback constraint, is none of branch, jump or halt, and
still has next_pc different from pc + 4, so the claim without a realness
hypothesis fails. -/
theorem seq_next_pc_counterexample :
    (∀ c ∈ CpuOpcodeSpecificChip.seqConstraints ceRow, c = 0) ∧
    ceRow.selectors.is_branch_instruction = 0 ∧
    ceRow.selectors.is_jal = 0 ∧ ceRow.selectors.is_jalr = 0 ∧
    ceRow.is_halt = 0 ∧ ¬ ceRow.next_pc = ceRow.pc + 4 := by
  refine ⟨?_, rfl, rfl, rfl, rfl, ?_⟩
  · have h0 : CpuOpcodeSpecificChip.seqConstraints ceRow = [0] := rfl
    rw [h0]
    exact List.forall_mem_singleton.mpr rfl
  · intro h
    rw [show ceRow.next_pc = 1 from rfl, show ceRow.pc = 0 from rfl] at h
    rw [zero_add] at h
    exact absurd h (by decide)

/-- Claim C6 amended: on a real row of the opcode-specific chip that is none of
branch, jump (JAL or JALR) or halt, next_pc equals pc + 4. -/
theorem seq_next_pc_correct (lrow : CpuOpcodeSpecificCols)
    (h : ∀ c ∈ CpuOpcodeSpecificChip.seqConstraints lrow, c = 0)
    (hreal : lrow.is_real = 1)
    (hbr : lrow.selectors.is_branch_instruction = 0)
    (hjal : lrow.selectors.is_jal = 0) (hjalr : lrow.selectors.is_jalr = 0)
    (hhalt : lrow.is_halt = 0) :
    lrow.next_pc = lrow.pc + 4 := by
  have hc := h _ (List.mem_cons_self _ _)
  rw [hreal, one_mul, hbr, hjal, hjalr, hhalt] at hc
  have hc2 : lrow.pc + 4 - lrow.next_pc = 0 := by
    rw [← hc]; ring
  rw [sub_eq_zero] at hc2
  exact hc2.symm

theorem seq_next_pc_correct_witness :
    (∀ c ∈ CpuOpcodeSpecificChip.seqConstraints seqRowW, c = 0) ∧
      seqRowW.next_pc = seqRowW.pc + 4 :=
  have hall : ∀ c ∈ CpuOpcodeSpecificChip.seqConstraints seqRowW, c = 0 := by
    have h0 : CpuOpcodeSpecificChip.seqConstraints seqRowW = [0] := rfl
    rw [h0]
    exact List.forall_mem_singleton.mpr rfl
  ⟨hall, seq_next_pc_correct seqRowW hall rfl rfl rfl rfl rfl⟩

/-- Claim C2: for every row of the local-memory chip, the Initialize chip sends
the tuple (shard, clk, addr, value limbs) with multiplicity is_real and
kind Memory into the global scope and receives the identical tuple locally,
and the Finalize chip receives it globally and sends it locally. -/
theorem memoryLocal_scopes_correct (lrow : MemoryLocalInitCols) :
    MemoryLocalChip.evalInteractions MemoryChipType.Initialize lrow =
      [ ⟨InteractionDir.Send, InteractionScope.Global,
          ⟨[lrow.shard, lrow.clk, lrow.addr, lrow.value.b0, lrow.value.b1,
            lrow.value.b2, lrow.value.b3], lrow.is_real,
            InteractionKind.Memory⟩⟩
      , ⟨InteractionDir.Receive, InteractionScope.Local,
          ⟨[lrow.shard, lrow.clk, lrow.addr, lrow.value.b0, lrow.value.b1,
            lrow.value.b2, lrow.value.b3], lrow.is_real,
            InteractionKind.Memory⟩⟩ ] ∧
    MemoryLocalChip.evalInteractions MemoryChipType.Finalize lrow =
      [ ⟨InteractionDir.Receive, InteractionScope.Global,
          ⟨[lrow.shard, lrow.clk, lrow.addr, lrow.value.b0, lrow.value.b1,
            lrow.value.b2, lrow.value.b3], lrow.is_real,
            InteractionKind.Memory⟩⟩
      , ⟨InteractionDir.Send, InteractionScope.Local,
          ⟨[lrow.shard, lrow.clk, lrow.addr, lrow.value.b0, lrow.value.b1,
            lrow.value.b2, lrow.value.b3], lrow.is_real,
            InteractionKind.Memory⟩⟩ ] :=
  ⟨rfl, rfl⟩

/-- Claim C10: the only row-local constraint of the local-memory chip is the self
equality is_real^3 = is_real^3, and every assignment of a row satisfies it;
in particular the row constraints never force is_real to be boolean. -/
theorem memoryLocal_row_constraints_trivial (lrow : MemoryLocalInitCols) :
    MemoryLocalChip.evalConstraints lrow =
      [ lrow.is_real * lrow.is_real * lrow.is_real
          - lrow.is_real * lrow.is_real * lrow.is_real ] ∧
    ∀ c ∈ MemoryLocalChip.evalConstraints lrow, c = 0 := by
  refine ⟨rfl, ?_⟩
  intro c hc
  simp only [MemoryLocalChip.evalConstraints, List.mem_singleton] at hc
  rw [hc]
  ring

/-- Claim C9: MemoryLocalChip::included holds for a shard exactly when the shard
has a local memory access event, directly or surfaced by a keccak-permute
precompile event. -/
theorem memoryLocal_included_correct (r : ExecutionRecord) :
    MemoryLocalChip.included r = true ↔
      ((∃ e, e ∈ r.local_memory_access) ∨
        ∃ k ∈ r.keccak_permute_events, ∃ e, e ∈ k.local_mem_access) := by
  unfold MemoryLocalChip.included
  simp only [Bool.or_eq_true, Bool.not_eq_true', List.isEmpty_eq_false]
  constructor
  · rintro (h | h)
    · rcases List.exists_mem_of_ne_nil _ h with ⟨e, he⟩
      rcases List.mem_flatMap.mp he with ⟨k, hk, hek⟩
      exact Or.inr ⟨k, hk, e, hek⟩
    · rcases List.exists_mem_of_ne_nil _ h with ⟨e, he⟩
      exact Or.inl ⟨e, he⟩
  · rintro (⟨e, he⟩ | ⟨k, hk, e, hek⟩)
    · exact Or.inr (List.ne_nil_of_mem he)
    · exact Or.inl (List.ne_nil_of_mem (List.mem_flatMap.mpr ⟨k, hk, hek⟩))

theorem memoryLocal_included_correct_witness :
    MemoryLocalChip.included wRec = true :=
  (memoryLocal_included_correct wRec).mpr
    (Or.inl ⟨wEvt, List.mem_singleton_self wEvt⟩)
